import Mathlib

/-!
Verification of the Lanczos eigensolver kernels (`NSI`, `IPI`, `LanczosTri`)
from `lanczosEigensolver.py`.

The three kernels are shallowly embedded over exact rationals (`ℚ`).  The
numerical primitives the Python code imports from its collaborator libraries
(`numpy.linalg.qr`, `numpy.linalg.solve`, `scipy.linalg.norm`) are taken as
explicit function parameters (`qrQ`, `solve`, `nrm`), since the repository
does not implement them; `ratSolve` below is an exact-arithmetic model of
`numpy.linalg.solve` (fails precisely on singular systems).  Python `while`
loops are embedded with an explicit fuel argument: a result of `none` means
the loop is still running after `fuel` guard checks.  Python exceptions are
embedded as error values: `PyRes.linAlgError` for the `LinAlgError` raised by
a failing solve, `PyRes.nameError` for the `NameError` raised when a loop
body never ran and its result variable is unbound.
-/

open Matrix

/-- Vectors of length `n` (numpy 1-D arrays of floats, modelled over `ℚ`). -/
abbrev Vec (n : ℕ) : Type := Fin n → ℚ

/-- Dense `n × m` matrices over `ℚ`. -/
abbrev Mat (n m : ℕ) : Type := Matrix (Fin n) (Fin m) ℚ

/-- Type of the external Euclidean-norm primitive `scipy.linalg.norm`,
usable at every dimension (the Python code applies it to vectors of
several lengths and to scalars, which numpy treats as 1-element arrays). -/
def NrmF : Type := {k : ℕ} → Vec k → ℚ

/-- Result of a Python function call: a returned value, a raised
`numpy.linalg.LinAlgError`, or a raised `NameError` (unbound variable). -/
inductive PyRes (α : Type) where
  | val : α → PyRes α
  | linAlgError : PyRes α
  | nameError : PyRes α
deriving DecidableEq

/-- How the `NSI` while-loop was exited: through its tolerance guard, or
through the `ctr == maxiter` break. -/
inductive ExitKind where
  | tol : ExitKind
  | cap : ExitKind
deriving DecidableEq

/-- `np.sort` on a vector: the entries rearranged in ascending order. -/
def sortVec {k : ℕ} (v : Vec k) : Vec k :=
  fun i => (List.insertionSort (· ≤ ·) (List.ofFn v)).get
    (Fin.cast (by simp) i)

/-- Model of `numpy.linalg.solve`: exact solution of `M x = b` by Cramer's
rule, failing (raising `LinAlgError`, i.e. `none`) exactly when `M` is
singular. -/
def ratSolve {n : ℕ} (M : Mat n n) (b : Vec n) : Option (Vec n) :=
  if M.det = 0 then none else some (M.det⁻¹ • M.adjugate.mulVec b)

/-! ### NSI — Normalized Simultaneous (QR) Iteration, source lines 35-52 -/

/-- Loop state of `NSI`: the Python local variables `Q`, `lam` (absent
until the first loop iteration binds it), `residual`, `lprev`, `ctr`. -/
structure NSIState (n : ℕ) where
  Q : Mat n n
  lam : Option (Vec n)
  residual : ℚ
  lprev : Vec n
  ctr : ℕ

/-- One body execution of the `NSI` while-loop (source lines 44-48):
`Q, R = qr(A @ Q)` (only the orthogonal factor is used),
`lam = np.diagonal(Q.T @ A @ Q)`, `residual = norm(lprev - np.sort(lam))`,
`lprev = np.sort(lam)`, `ctr += 1`. -/
def NSIstep {n : ℕ} (qrQ : Mat n n → Mat n n) (nrm : NrmF) (A : Mat n n)
    (st : NSIState n) : NSIState n :=
  let Q := qrQ (A * st.Q)
  let lam := Matrix.diag (Q.transpose * A * Q)
  ⟨Q, some lam, nrm (st.lprev - sortVec lam), sortVec lam, st.ctr + 1⟩

/-- The `NSI` while-loop (source lines 43-49): guard `norm(residual) > tol`,
body `NSIstep`, then `if ctr == maxiter: break`.  Runs for at most `fuel`
guard checks; `none` means the loop is still running. -/
def NSIrun {n : ℕ} (qrQ : Mat n n → Mat n n) (nrm : NrmF) (A : Mat n n)
    (tol : ℚ) (maxiter : ℤ) : ℕ → NSIState n → Option (NSIState n × ExitKind)
  | 0, _ => none
  | fuel + 1, st =>
    if nrm (fun _ : Fin 1 => st.residual) > tol then
      let st1 := NSIstep qrQ nrm A st
      if (st1.ctr : ℤ) = maxiter then some (st1, ExitKind.cap)
      else NSIrun qrQ nrm A tol maxiter fuel st1
    else some (st, ExitKind.tol)

/-- Initial `NSI` state (source lines 38-42): `Q = np.identity(m)`,
`lam` unbound, `residual = 10`, `lprev = np.ones(m)`, `ctr = 0`. -/
def NSIinit (n : ℕ) : NSIState n :=
  ⟨1, none, 10, fun _ => 1, 0⟩

/-- The value `return(lam)` produces from a final state: the raw `lam`
vector if the loop body ran at least once, otherwise a `NameError`. -/
def NSIret {n : ℕ} (st : NSIState n) : PyRes (Vec n) :=
  match st.lam with
  | some l => PyRes.val l
  | none => PyRes.nameError

/-- `NSI(A, tol, maxiter)` (source lines 35-52).  The exit kind is
discarded: the caller sees only the returned `lam`. -/
def NSI {n : ℕ} (qrQ : Mat n n → Mat n n) (nrm : NrmF) (A : Mat n n)
    (tol : ℚ) (maxiter : ℤ) (fuel : ℕ) : Option (PyRes (Vec n)) :=
  (NSIrun qrQ nrm A tol maxiter fuel (NSIinit n)).map fun p => NSIret p.1

/-! ### IPI — shifted Inverse Power Iteration, source lines 56-71 -/

/-- The shift used by `IPI` (source line 60): the fixed constant `-3000`,
not a parameter of the function. -/
def IPIshift : ℚ := -3000

/-- The shifted matrix `B = A - s*np.identity(n)` formed by `IPI`
(source line 61), with the fixed internal shift `IPIshift`. -/
def IPIB {n : ℕ} (A : Mat n n) : Mat n n :=
  A - IPIshift • 1

/-- Loop state of `IPI`: the Python local variables `x`, `lam` (absent
until the first loop iteration binds it), `lam_old`, `err`. -/
structure IPIState (n : ℕ) where
  x : Vec n
  lam : Option ℚ
  lam_old : ℚ
  err : ℚ

/-- `u = x/norm(x)` (source line 65). -/
def IPIu {n : ℕ} (nrm : NrmF) (st : IPIState n) : Vec n :=
  fun i => st.x i / nrm st.x

/-- One body execution of the `IPI` while-loop (source lines 65-70):
`u = x/norm(x)`, `x = solve(B, u)` (`none` if the solve raises),
`mu = u.T @ x`, `lam = 1/mu + s`, `err = np.abs(lam_old - lam)`,
`lam_old = lam`. -/
def IPIstep {n : ℕ} (solve : Mat n n → Vec n → Option (Vec n)) (nrm : NrmF)
    (A : Mat n n) (st : IPIState n) : Option (IPIState n) :=
  let u := IPIu nrm st
  match solve (IPIB A) u with
  | none => none
  | some x =>
    let mu := u ⬝ᵥ x
    let lam := 1 / mu + IPIshift
    some ⟨x, some lam, lam, |st.lam_old - lam|⟩

/-- The value `return(lam)` produces from a final `IPI` state. -/
def IPIret {n : ℕ} (st : IPIState n) : PyRes ℚ :=
  match st.lam with
  | some l => PyRes.val l
  | none => PyRes.nameError

/-- The `IPI` while-loop (source lines 64-70): guard `err > tol`, body
`IPIstep`; a failing solve raises `LinAlgError` out of the loop.  The loop
has no iteration-cap test.  Runs for at most `fuel` guard checks; `none`
means the loop is still running. -/
def IPIrun {n : ℕ} (solve : Mat n n → Vec n → Option (Vec n)) (nrm : NrmF)
    (A : Mat n n) (tol : ℚ) : ℕ → IPIState n → Option (PyRes ℚ × IPIState n)
  | 0, _ => none
  | fuel + 1, st =>
    if st.err > tol then
      match IPIstep solve nrm A st with
      | none => some (PyRes.linAlgError, st)
      | some st1 => IPIrun solve nrm A tol fuel st1
    else some (IPIret st, st)

/-- Initial `IPI` state (source lines 59-63): `x = np.ones(n)`, `lam`
unbound, `lam_old = 1`, `err = 1`. -/
def IPIinit (n : ℕ) : IPIState n :=
  ⟨fun _ => 1, none, 1, 1⟩

/-- `IPI(A, tol, maxiter)` (source lines 56-71).  The declared `maxiter`
argument is kept in the signature but, as in the source, is never used. -/
def IPI {n : ℕ} (solve : Mat n n → Vec n → Option (Vec n)) (nrm : NrmF)
    (A : Mat n n) (tol : ℚ) (maxiter : ℤ) (fuel : ℕ) : Option (PyRes ℚ) :=
  (IPIrun solve nrm A tol fuel (IPIinit n)).map Prod.fst

/-! ### LanczosTri — Lanczos tridiagonalization, source lines 75-124 -/

/-- Loop state of `LanczosTri`: the basis `V` kept as its list of columns,
and the Python local variables `q`, `r`, `b1`, `ctr`. -/
structure LState (n : ℕ) where
  cols : List (Vec n)
  q : Vec n
  r : Vec n
  b1 : ℚ
  ctr : ℕ

/-- The state after the pre-loop part of `LanczosTri` (source lines 82-92):
`x = np.ones(n)`, `q = x/norm(x)`, `V = [q]`, `r = A @ q`, `a1 = q.T @ r`,
`r = r - a1*q`, `b1 = norm(r)`, `ctr = 0`. -/
def LanczosInit {n : ℕ} (nrm : NrmF) (A : Mat n n) : LState n :=
  let x : Vec n := fun _ => 1
  let q : Vec n := fun i => x i / nrm x
  let r := A.mulVec q
  let a1 := q ⬝ᵥ r
  let r2 := r - a1 • q
  ⟨[q], q, r2, nrm r2, 0⟩

/-- One body execution of the `LanczosTri` for-loop (source lines 95-108):
`v = q`, `q = r/b1`, `r = A @ q - b1*v`, `a1 = q.T @ r`, `r = r - a1*q`,
`b1 = norm(r)`, append `q` as a new column of `V`, then re-orthogonalize
the whole of `V` at once: `V = qr(V)[0]`, and `ctr += 1`. -/
def LStep {n : ℕ} (qrQ : List (Vec n) → List (Vec n)) (nrm : NrmF)
    (A : Mat n n) (st : LState n) : LState n :=
  let v := st.q
  let q : Vec n := fun i => st.r i / st.b1
  let r := A.mulVec q - st.b1 • v
  let a1 := q ⬝ᵥ r
  let r2 := r - a1 • q
  ⟨qrQ (st.cols ++ [q]), q, r2, nrm r2, st.ctr + 1⟩

/-- The `LanczosTri` for-loop `for j in range(2, n+1)` (source lines
94-112), run for the given number of remaining iterations: each iteration
performs `LStep` and then, if the freshly computed `b1` is `0`, returns
the current re-orthogonalized basis `V` early (source lines 110-112). -/
def LanczosLoop {n : ℕ} (qrQ : List (Vec n) → List (Vec n)) (nrm : NrmF)
    (A : Mat n n) : ℕ → LState n → Sum (List (Vec n)) (LState n)
  | 0, st => Sum.inr st
  | fuel + 1, st =>
    let st1 := LStep qrQ nrm A st
    if st1.b1 = 0 then Sum.inl st1.cols
    else LanczosLoop qrQ nrm A fuel st1

/-- `T = V.T @ A @ V` (source line 122) for a basis given as a list of
columns: the `m × m` matrix of all pairwise products `vᵢᵀ A vⱼ`
(`LanczosTri` always passes `m = cols.length`, so the `getD` default is
never read; it only keeps the indexing total). -/
def gram {n : ℕ} (A : Mat n n) (cols : List (Vec n)) (m : ℕ) : Mat m m :=
  Matrix.of fun i j => (cols.getD i 0) ⬝ᵥ (A.mulVec (cols.getD j 0))

/-- `LanczosTri(A)` (source lines 75-124): after the initialization, run
the loop `n - 1` times; on breakdown return the partial basis `V`
(`Sum.inl`), otherwise return `T = V.T @ A @ V` (`Sum.inr`), whose size is
the number of columns `V` ended with. -/
def LanczosTri {n : ℕ} (qrQ : List (Vec n) → List (Vec n)) (nrm : NrmF)
    (A : Mat n n) : Sum (List (Vec n)) ((m : ℕ) × Mat m m) :=
  match LanczosLoop qrQ nrm A (n - 1) (LanczosInit nrm A) with
  | Sum.inl V => Sum.inl V
  | Sum.inr st => Sum.inr ⟨st.cols.length, gram A st.cols st.cols.length⟩

/-! ### Concrete instantiations of the collaborator primitives,
used to evaluate the kernels at specific inputs -/

/-- A concrete norm usable as the `scipy.linalg.norm` parameter at
specific inputs: the absolute value of the sum of the entries.  It agrees
with the Euclidean norm on every vector occurring in the concrete runs
below (all of them have at most one nonzero entry, or entries of equal
sign that make both norms vanish or agree where it matters). -/
def absNorm : NrmF := fun {_} v => |∑ i, v i|

/-- A concrete orthogonal-output instantiation of the `numpy.linalg.qr`
parameter of `NSI`: it always returns the identity, which is orthogonal. -/
def qrOne (n : ℕ) : Mat n n → Mat n n := fun _ => 1

/-- A concrete length-preserving instantiation of the `numpy.linalg.qr`
parameter of `LanczosTri`: it returns the basis unchanged. -/
def qrKeep (n : ℕ) : List (Vec n) → List (Vec n) := fun l => l

/-- The `1 × 1` matrix `[[c]]`. -/
def mat1 (c : ℚ) : Mat 1 1 := Matrix.of fun _ _ => c

/-- The `2 × 2` symmetric matrix `[[0, 1], [1, 0]]`. -/
def swapMat : Mat 2 2 := Matrix.of ![![0, 1], ![1, 0]]

/-- The `2 × 2` diagonal matrix `[[2, 0], [0, 1]]`, whose diagonal is not
in ascending order. -/
def diag21 : Mat 2 2 := Matrix.of ![![2, 0], ![0, 1]]

/-! ### General lemmas about the embedded kernels -/

/-- Sorting a 1-element vector changes nothing. -/
theorem sortVec_one (v : Vec 1) : sortVec v = v := by
  funext i
  have hi : i = 0 := Subsingleton.elim i 0
  subst hi
  simp [sortVec, List.ofFn, List.insertionSort]

/-- `absNorm` agrees with the Euclidean norm on 1-element vectors. -/
theorem absNorm_single (q : ℚ) : absNorm (fun _ : Fin 1 => q) = |q| := by
  simp [absNorm, Fin.sum_univ_one]

/-- `qrOne` always outputs an orthogonal matrix. -/
theorem qrOne_orth (n : ℕ) (M : Mat n n) :
    (qrOne n M).transpose * qrOne n M = 1 := by
  simp [qrOne]

/-- Unfolding `NSIrun` when the tolerance guard fails: the loop stops. -/
theorem NSIrun_stop {n : ℕ} (qrQ : Mat n n → Mat n n) (nrm : NrmF) (A : Mat n n)
    (tol : ℚ) (maxiter : ℤ) (fuel : ℕ) (st : NSIState n)
    (h : ¬ nrm (fun _ : Fin 1 => st.residual) > tol) :
    NSIrun qrQ nrm A tol maxiter (fuel + 1) st = some (st, ExitKind.tol) := by
  simp [NSIrun, h]

/-- Unfolding `NSIrun` when the guard holds and the stepped counter hits
`maxiter`: the loop breaks. -/
theorem NSIrun_cap {n : ℕ} (qrQ : Mat n n → Mat n n) (nrm : NrmF) (A : Mat n n)
    (tol : ℚ) (maxiter : ℤ) (fuel : ℕ) (st : NSIState n)
    (h : nrm (fun _ : Fin 1 => st.residual) > tol)
    (hc : ((NSIstep qrQ nrm A st).ctr : ℤ) = maxiter) :
    NSIrun qrQ nrm A tol maxiter (fuel + 1) st =
      some (NSIstep qrQ nrm A st, ExitKind.cap) := by
  simp [NSIrun, h, hc]

/-- Unfolding `NSIrun` when the guard holds and the counter misses
`maxiter`: the loop continues. -/
theorem NSIrun_go {n : ℕ} (qrQ : Mat n n → Mat n n) (nrm : NrmF) (A : Mat n n)
    (tol : ℚ) (maxiter : ℤ) (fuel : ℕ) (st : NSIState n)
    (h : nrm (fun _ : Fin 1 => st.residual) > tol)
    (hc : ((NSIstep qrQ nrm A st).ctr : ℤ) ≠ maxiter) :
    NSIrun qrQ nrm A tol maxiter (fuel + 1) st =
      NSIrun qrQ nrm A tol maxiter fuel (NSIstep qrQ nrm A st) := by
  simp [NSIrun, h, hc]

/-- Each `NSI` loop body increments the counter by exactly one. -/
theorem NSIstep_ctr {n : ℕ} (qrQ : Mat n n → Mat n n) (nrm : NrmF)
    (A : Mat n n) (st : NSIState n) :
    (NSIstep qrQ nrm A st).ctr = st.ctr + 1 := rfl

/-- Conjugating `[[c]]` by any matrix with orthonormal column keeps the
diagonal equal to `c`. -/
theorem diag_conj_mat1 (c : ℚ) (qrQ : Mat 1 1 → Mat 1 1)
    (hq : ∀ M : Mat 1 1, (qrQ M).transpose * qrQ M = 1) (M : Mat 1 1) :
    Matrix.diag ((qrQ M).transpose * (mat1 c) * (qrQ M)) = fun _ => c := by
  have h1 : qrQ M 0 0 * qrQ M 0 0 = 1 := by
    have := congrFun (congrFun (hq M) 0) 0
    simpa [Matrix.mul_apply, Fin.sum_univ_one] using this
  funext i
  have hi : i = 0 := Subsingleton.elim i 0
  subst hi
  simp [Matrix.diag, Matrix.mul_apply, Fin.sum_univ_one, mat1]
  linear_combination c * h1

/-- The `NSI` loop body on the input `[[c]]`, written out. -/
theorem NSIstep_mat1 (c : ℚ) (qrQ : Mat 1 1 → Mat 1 1) (nrm : NrmF)
    (hq : ∀ M : Mat 1 1, (qrQ M).transpose * qrQ M = 1) (st : NSIState 1) :
    NSIstep qrQ nrm (mat1 c) st =
      ⟨qrQ (mat1 c * st.Q), some fun _ => c,
        nrm (st.lprev - fun _ => c), (fun _ => c), st.ctr + 1⟩ := by
  simp only [NSIstep]
  rw [diag_conj_mat1 c qrQ hq, sortVec_one]

/-- `NSI` on `[[c]]` returns the one-element eigenvalue vector `[c]`, for
any orthogonal-output `qr`, any `maxiter`, any nonnegative tolerance below
the initial residual sentinel, and fuel for at least three guard checks. -/
theorem NSI_mat1 (c tol : ℚ) (maxiter : ℤ) (fuel : ℕ)
    (qrQ : Mat 1 1 → Mat 1 1) (nrm : NrmF)
    (hq : ∀ M : Mat 1 1, (qrQ M).transpose * qrQ M = 1)
    (h0 : nrm (fun _ : Fin 1 => (0:ℚ)) = 0)
    (ht0 : 0 ≤ tol)
    (h10 : tol < nrm (fun _ : Fin 1 => (10:ℚ)))
    (hfuel : 3 ≤ fuel) :
    NSI qrQ nrm (mat1 c) tol maxiter fuel = some (PyRes.val fun _ => c) := by
  obtain ⟨f, rfl⟩ : ∃ f, fuel = f + 3 := ⟨fuel - 3, by omega⟩
  have hstep := NSIstep_mat1 c qrQ nrm hq
  have hg1 : nrm (fun _ : Fin 1 => (NSIinit 1).residual) > tol := h10
  unfold NSI
  by_cases hm1 : ((NSIstep qrQ nrm (mat1 c) (NSIinit 1)).ctr : ℤ) = maxiter
  · rw [NSIrun_cap qrQ nrm (mat1 c) tol maxiter (f + 2) (NSIinit 1) hg1 hm1]
    rw [hstep (NSIinit 1)]
    simp [NSIret]
  · rw [NSIrun_go qrQ nrm (mat1 c) tol maxiter (f + 2) (NSIinit 1) hg1 hm1]
    rw [hstep (NSIinit 1)]
    set st1 : NSIState 1 :=
      ⟨qrQ (mat1 c * (NSIinit 1).Q), some fun _ => c,
        nrm ((NSIinit 1).lprev - fun _ => c), (fun _ => c), (NSIinit 1).ctr + 1⟩ with hst1
    by_cases hg2 : nrm (fun _ : Fin 1 => st1.residual) > tol
    · have hsub : ((fun _ => c) - fun _ => c : Vec 1) = fun _ => (0:ℚ) := by
        funext i; simp
      by_cases hm2 : ((NSIstep qrQ nrm (mat1 c) st1).ctr : ℤ) = maxiter
      · rw [NSIrun_cap qrQ nrm (mat1 c) tol maxiter (f + 1) st1 hg2 hm2]
        rw [hstep st1]
        simp [NSIret]
      · rw [NSIrun_go qrQ nrm (mat1 c) tol maxiter (f + 1) st1 hg2 hm2]
        rw [hstep st1]
        have hres2 : nrm (st1.lprev - fun _ => c) = 0 := by
          rw [hst1]
          show nrm ((fun _ => c) - fun _ => c : Vec 1) = 0
          rw [hsub, h0]
        have hg3 : ¬ nrm (fun _ : Fin 1 =>
            (⟨qrQ (mat1 c * st1.Q), some fun _ => c,
              nrm (st1.lprev - fun _ => c), (fun _ => c), st1.ctr + 1⟩ :
              NSIState 1).residual) > tol := by
          show ¬ nrm (fun _ : Fin 1 => nrm (st1.lprev - fun _ => c)) > tol
          rw [hres2, h0]
          exact not_lt.mpr ht0
        rw [NSIrun_stop qrQ nrm (mat1 c) tol maxiter f _ hg3]
        simp [NSIret]
    · rw [NSIrun_stop qrQ nrm (mat1 c) tol maxiter (f + 1) st1 hg2]
      simp [NSIret, hst1]

/-- Unfolding `IPIrun` when the tolerance guard fails: the loop stops. -/
theorem IPIrun_stop {n : ℕ} (solve : Mat n n → Vec n → Option (Vec n))
    (nrm : NrmF) (A : Mat n n) (tol : ℚ) (fuel : ℕ) (st : IPIState n)
    (h : ¬ st.err > tol) :
    IPIrun solve nrm A tol (fuel + 1) st = some (IPIret st, st) := by
  simp [IPIrun, h]

/-- Unfolding `IPIrun` when the solve fails: the `LinAlgError` escapes. -/
theorem IPIrun_fail {n : ℕ} (solve : Mat n n → Vec n → Option (Vec n))
    (nrm : NrmF) (A : Mat n n) (tol : ℚ) (fuel : ℕ) (st : IPIState n)
    (h : st.err > tol) (hs : IPIstep solve nrm A st = none) :
    IPIrun solve nrm A tol (fuel + 1) st = some (PyRes.linAlgError, st) := by
  simp [IPIrun, h, hs]

/-- Unfolding `IPIrun` when the guard holds and the solve succeeds. -/
theorem IPIrun_go {n : ℕ} (solve : Mat n n → Vec n → Option (Vec n))
    (nrm : NrmF) (A : Mat n n) (tol : ℚ) (fuel : ℕ) (st st1 : IPIState n)
    (h : st.err > tol) (hs : IPIstep solve nrm A st = some st1) :
    IPIrun solve nrm A tol (fuel + 1) st = IPIrun solve nrm A tol fuel st1 := by
  simp [IPIrun, h, hs]

/-- The `IPI` loop body written out when the linear solve succeeds:
`mu = u.T @ x`, `lam = 1/mu + s`, `err = |lam_old - lam|`. -/
theorem IPIstep_some {n : ℕ} (solve : Mat n n → Vec n → Option (Vec n))
    (nrm : NrmF) (A : Mat n n) (st : IPIState n) (x : Vec n)
    (hs : solve (IPIB A) (IPIu nrm st) = some x) :
    IPIstep solve nrm A st =
      some ⟨x, some (1 / (IPIu nrm st ⬝ᵥ x) + IPIshift),
        1 / (IPIu nrm st ⬝ᵥ x) + IPIshift,
        |st.lam_old - (1 / (IPIu nrm st ⬝ᵥ x) + IPIshift)|⟩ := by
  simp only [IPIstep, hs]

/-- The `IPI` loop body fails exactly when the linear solve fails. -/
theorem IPIstep_none {n : ℕ} (solve : Mat n n → Vec n → Option (Vec n))
    (nrm : NrmF) (A : Mat n n) (st : IPIState n)
    (hs : solve (IPIB A) (IPIu nrm st) = none) :
    IPIstep solve nrm A st = none := by
  simp only [IPIstep, hs]

/-- The shifted matrix `IPI` builds from `[[c]]` is `[[c + 3000]]`. -/
theorem IPIB_mat1 (c : ℚ) : IPIB (mat1 c) = mat1 (c + 3000) := by
  funext i j
  have hi : i = 0 := Subsingleton.elim i 0
  have hj : j = 0 := Subsingleton.elim j 0
  subst hi; subst hj
  simp [IPIB, IPIshift, mat1, Matrix.sub_apply, Matrix.smul_apply, Matrix.one_apply]

/-- `ratSolve` on a nonsingular `1 × 1` system. -/
theorem ratSolve_mat1 (d : ℚ) (hd : d ≠ 0) (b : Vec 1) :
    ratSolve (mat1 d) b = some (d⁻¹ • b) := by
  have hdet : (mat1 d).det = d := by
    rw [Matrix.det_fin_one]
    simp [mat1]
  rw [ratSolve, if_neg (by rw [hdet]; exact hd)]
  rw [Matrix.adjugate_fin_one, hdet, Matrix.one_mulVec]

/-- `IPI` on `[[c]]`, for any `c` distinct from the built-in shift, any
`maxiter`, any Euclidean-norm instantiation, and any tolerance in `[0, 1)`,
converges to the eigenvalue `c` within three guard checks. -/
theorem IPI_mat1 (c tol : ℚ) (maxiter : ℤ) (fuel : ℕ) (nrm : NrmF)
    (habs : ∀ q : ℚ, nrm (fun _ : Fin 1 => q) = |q|)
    (hc : c ≠ -3000) (ht0 : 0 ≤ tol) (ht1 : tol < 1) (hfuel : 3 ≤ fuel) :
    IPI ratSolve nrm (mat1 c) tol maxiter fuel = some (PyRes.val c) := by
  obtain ⟨f, rfl⟩ : ∃ f, fuel = f + 3 := ⟨fuel - 3, by omega⟩
  have hd : c + 3000 ≠ 0 := by
    intro h
    exact hc (by linarith)
  have hu1 : IPIu nrm (IPIinit 1) = fun _ => (1:ℚ) := by
    funext i
    simp [IPIu, IPIinit, habs 1]
  have hsol1 : ratSolve (IPIB (mat1 c)) (IPIu nrm (IPIinit 1)) =
      some (fun _ => (c + 3000)⁻¹) := by
    rw [hu1, IPIB_mat1, ratSolve_mat1 (c + 3000) hd]
    congr 1
    funext i
    simp
  have hs1 := IPIstep_some ratSolve nrm (mat1 c) (IPIinit 1) _ hsol1
  rw [hu1] at hs1
  have hmu1 : ((fun _ : Fin 1 => (1:ℚ)) ⬝ᵥ fun _ : Fin 1 => (c + 3000)⁻¹) = (c + 3000)⁻¹ := by
    simp [Matrix.dotProduct, Fin.sum_univ_one]
  rw [hmu1] at hs1
  have hlam : 1 / (c + 3000)⁻¹ + IPIshift = c := by
    rw [IPIshift, one_div, inv_inv]; ring
  rw [hlam] at hs1
  have hlo1 : (IPIinit 1).lam_old = 1 := rfl
  rw [hlo1] at hs1
  have hg1 : (IPIinit 1).err > tol := by
    show (1:ℚ) > tol
    linarith
  unfold IPI
  rw [IPIrun_go ratSolve nrm (mat1 c) tol (f + 2) (IPIinit 1) _ hg1 hs1]
  set st1 : IPIState 1 := ⟨fun _ => (c + 3000)⁻¹, some c, c, |1 - c|⟩ with hst1
  by_cases hg2 : st1.err > tol
  · have hdinv : (c + 3000)⁻¹ ≠ 0 := inv_ne_zero hd
    have hu2 : IPIu nrm st1 = fun _ => (c + 3000)⁻¹ / |(c + 3000)⁻¹| := by
      funext i
      simp [IPIu, hst1, habs ((c + 3000)⁻¹)]
    have hsol2 : ratSolve (IPIB (mat1 c)) (IPIu nrm st1) =
        some (fun _ => (c + 3000)⁻¹ * ((c + 3000)⁻¹ / |(c + 3000)⁻¹|)) := by
      rw [hu2, IPIB_mat1, ratSolve_mat1 (c + 3000) hd]
      rfl
    have hs2 := IPIstep_some ratSolve nrm (mat1 c) st1 _ hsol2
    rw [hu2] at hs2
    have hmu2 : ((fun _ : Fin 1 => (c + 3000)⁻¹ / |(c + 3000)⁻¹|) ⬝ᵥ
        fun _ : Fin 1 => (c + 3000)⁻¹ * ((c + 3000)⁻¹ / |(c + 3000)⁻¹|)) = (c + 3000)⁻¹ := by
      simp only [Matrix.dotProduct, Fin.sum_univ_one]
      rcases abs_choice ((c + 3000)⁻¹) with h | h
      · rw [h, div_self hdinv]; ring
      · rw [h, div_neg, div_self hdinv]; ring
    rw [hmu2, hlam] at hs2
    have hlo2 : st1.lam_old = c := rfl
    rw [hlo2] at hs2
    have hcc : |c - c| = 0 := by simp
    rw [hcc] at hs2
    rw [IPIrun_go ratSolve nrm (mat1 c) tol (f + 1) st1 _ hg2 hs2]
    have hg3 : ¬ (⟨fun _ => (c + 3000)⁻¹ * ((c + 3000)⁻¹ / |(c + 3000)⁻¹|),
        some c, c, 0⟩ : IPIState 1).err > tol := by
      show ¬ (0:ℚ) > tol
      exact not_lt.mpr ht0
    rw [IPIrun_stop ratSolve nrm (mat1 c) tol f _ hg3]
    simp [IPIret]
  · rw [IPIrun_stop ratSolve nrm (mat1 c) tol (f + 1) st1 hg2]
    simp [IPIret, hst1]

/-- Unfolding `LanczosTri` when the loop finishes without breakdown. -/
theorem LanczosTri_inr {n : ℕ} (qrQ : List (Vec n) → List (Vec n)) (nrm : NrmF)
    (A : Mat n n) (st : LState n)
    (h : LanczosLoop qrQ nrm A (n - 1) (LanczosInit nrm A) = Sum.inr st) :
    LanczosTri qrQ nrm A = Sum.inr ⟨st.cols.length, gram A st.cols st.cols.length⟩ := by
  unfold LanczosTri
  rw [h]

/-- Unfolding `LanczosTri` when the loop breaks down. -/
theorem LanczosTri_inl {n : ℕ} (qrQ : List (Vec n) → List (Vec n)) (nrm : NrmF)
    (A : Mat n n) (V : List (Vec n))
    (h : LanczosLoop qrQ nrm A (n - 1) (LanczosInit nrm A) = Sum.inl V) :
    LanczosTri qrQ nrm A = Sum.inl V := by
  unfold LanczosTri
  rw [h]

/-- Unfolding `LanczosLoop` when the freshly computed `b1` vanishes: the
loop returns the current re-orthogonalized basis early. -/
theorem LanczosLoop_break {n : ℕ} (qrQ : List (Vec n) → List (Vec n))
    (nrm : NrmF) (A : Mat n n) (fuel : ℕ) (st : LState n)
    (hb : (LStep qrQ nrm A st).b1 = 0) :
    LanczosLoop qrQ nrm A (fuel + 1) st = Sum.inl (LStep qrQ nrm A st).cols := by
  simp [LanczosLoop, hb]

/-- Unfolding `LanczosLoop` when the freshly computed `b1` is nonzero. -/
theorem LanczosLoop_go {n : ℕ} (qrQ : List (Vec n) → List (Vec n))
    (nrm : NrmF) (A : Mat n n) (fuel : ℕ) (st : LState n)
    (hb : ¬ (LStep qrQ nrm A st).b1 = 0) :
    LanczosLoop qrQ nrm A (fuel + 1) st =
      LanczosLoop qrQ nrm A fuel (LStep qrQ nrm A st) := by
  simp [LanczosLoop, hb]

/-- `LanczosTri` on `[[c]]` returns `[[c]]` with no loop iteration, for
any norm that maps the all-ones 1-vector to `1`. -/
theorem LanczosTri_mat1 (qrQ : List (Vec 1) → List (Vec 1)) (nrm : NrmF) (c : ℚ)
    (h1 : nrm (fun _ : Fin 1 => (1:ℚ)) = 1) :
    LanczosTri qrQ nrm (mat1 c) = Sum.inr ⟨1, mat1 c⟩ := by
  have h0 : LanczosLoop qrQ nrm (mat1 c) (1 - 1)
      (LanczosInit nrm (mat1 c)) = Sum.inr (LanczosInit nrm (mat1 c)) := rfl
  rw [LanczosTri_inr qrQ nrm (mat1 c) _ h0]
  show (Sum.inr ⟨1, gram (mat1 c) (LanczosInit nrm (mat1 c)).cols 1⟩ :
    Sum (List (Vec 1)) ((m : ℕ) × Mat m m)) = Sum.inr ⟨1, mat1 c⟩
  have hg : gram (mat1 c) (LanczosInit nrm (mat1 c)).cols 1 = mat1 c := by
    funext i j
    have hi : i = 0 := Subsingleton.elim i 0
    have hj : j = 0 := Subsingleton.elim j 0
    subst hi; subst hj
    simp [gram, LanczosInit, mat1, Matrix.mulVec, Matrix.dotProduct,
      Fin.sum_univ_one, h1]
  rw [hg]

/-- The `lam` variable is always bound after an `NSI` loop body. -/
theorem NSIstep_lam_isSome {n : ℕ} (qrQ : Mat n n → Mat n n) (nrm : NrmF)
    (A : Mat n n) (st : NSIState n) :
    (NSIstep qrQ nrm A st).lam.isSome = true := rfl

/-- If the counter is still below `maxiter` and the fuel covers the gap,
the `NSI` loop reaches an exit: the counter never passes `maxiter`, and
`lam` is bound at the exit if it was bound at entry or a body ran. -/
theorem NSIrun_total {n : ℕ} (qrQ : Mat n n → Mat n n) (nrm : NrmF)
    (A : Mat n n) (tol : ℚ) (maxiter : ℤ) (fuel : ℕ) :
    ∀ st : NSIState n, (st.ctr : ℤ) < maxiter → maxiter ≤ (st.ctr : ℤ) + fuel →
      ∃ st' ek, NSIrun qrQ nrm A tol maxiter fuel st = some (st', ek) ∧
        st.ctr ≤ st'.ctr ∧ (st'.ctr : ℤ) ≤ maxiter ∧
        (st'.lam = st.lam ∨ st'.lam.isSome = true) := by
  induction fuel with
  | zero =>
    intro st hlt hle
    exfalso
    omega
  | succ f ih =>
    intro st hlt hle
    by_cases hg : nrm (fun _ : Fin 1 => st.residual) > tol
    · by_cases hc : ((NSIstep qrQ nrm A st).ctr : ℤ) = maxiter
      · refine ⟨NSIstep qrQ nrm A st, ExitKind.cap,
          NSIrun_cap qrQ nrm A tol maxiter f st hg hc, ?_, le_of_eq hc,
          Or.inr (NSIstep_lam_isSome qrQ nrm A st)⟩
        rw [NSIstep_ctr]
        omega
      · have hct : (NSIstep qrQ nrm A st).ctr = st.ctr + 1 :=
          NSIstep_ctr qrQ nrm A st
        have h1 : ((NSIstep qrQ nrm A st).ctr : ℤ) < maxiter := by
          rw [hct]
          push_cast
          rw [hct] at hc
          push_cast at hc
          omega
        have h2 : maxiter ≤ ((NSIstep qrQ nrm A st).ctr : ℤ) + f := by
          rw [hct]
          push_cast
          push_cast at hle
          omega
        obtain ⟨st', ek, hrun, hmono, hub, hlam⟩ := ih (NSIstep qrQ nrm A st) h1 h2
        refine ⟨st', ek, ?_, ?_, hub, ?_⟩
        · rw [NSIrun_go qrQ nrm A tol maxiter f st hg hc]
          exact hrun
        · rw [hct] at hmono
          omega
        · rcases hlam with h | h
          · right
            rw [h]
            exact NSIstep_lam_isSome qrQ nrm A st
          · right
            exact h
    · exact ⟨st, ExitKind.tol, NSIrun_stop qrQ nrm A tol maxiter f st hg,
        le_refl _, le_of_lt hlt, Or.inl rfl⟩

/-- With `maxiter ≤ 0` the `ctr == maxiter` break of `NSI` can never fire:
any exit the loop reaches is a tolerance exit. -/
theorem NSIrun_no_cap {n : ℕ} (qrQ : Mat n n → Mat n n) (nrm : NrmF)
    (A : Mat n n) (tol : ℚ) (maxiter : ℤ) (hm : maxiter ≤ 0) (fuel : ℕ) :
    ∀ (st : NSIState n) (p : NSIState n × ExitKind),
      NSIrun qrQ nrm A tol maxiter fuel st = some p → p.2 = ExitKind.tol := by
  induction fuel with
  | zero =>
    intro st p h
    simp [NSIrun] at h
  | succ f ih =>
    intro st p h
    by_cases hg : nrm (fun _ : Fin 1 => st.residual) > tol
    · have hc : ((NSIstep qrQ nrm A st).ctr : ℤ) ≠ maxiter := by
        rw [NSIstep_ctr]
        push_cast
        omega
      rw [NSIrun_go qrQ nrm A tol maxiter f st hg hc] at h
      exact ih _ p h
    · rw [NSIrun_stop qrQ nrm A tol maxiter f st hg] at h
      rw [(Option.some.inj h).symm]

/-- If the `IPI` loop exits with a returned value, the final error is at
or below the tolerance: the tolerance guard is the only value-producing
exit of the loop. -/
theorem IPIrun_val_err {n : ℕ} (solve : Mat n n → Vec n → Option (Vec n))
    (nrm : NrmF) (A : Mat n n) (tol : ℚ) (fuel : ℕ) :
    ∀ (st : IPIState n) (l : ℚ) (st' : IPIState n),
      IPIrun solve nrm A tol fuel st = some (PyRes.val l, st') → st'.err ≤ tol := by
  induction fuel with
  | zero =>
    intro st l st' h
    simp [IPIrun] at h
  | succ f ih =>
    intro st l st' h
    by_cases hg : st.err > tol
    · cases hs : IPIstep solve nrm A st with
      | none =>
        rw [IPIrun_fail solve nrm A tol f st hg hs] at h
        exact absurd (congrArg Prod.fst (Option.some.inj h)) (by simp)
      | some st1 =>
        rw [IPIrun_go solve nrm A tol f st st1 hg hs] at h
        exact ih st1 l st' h
    · rw [IPIrun_stop solve nrm A tol f st hg] at h
      have hp := Option.some.inj h
      have hst : st = st' := congrArg Prod.snd hp
      rw [← hst]
      exact not_lt.mp hg

/-- Invariant of the `NSI` loop: whenever `lam` is bound, it is the raw
diagonal of `Q.T @ A @ Q` for the current `Q`. -/
theorem NSIrun_lam_diag {n : ℕ} (qrQ : Mat n n → Mat n n) (nrm : NrmF)
    (A : Mat n n) (tol : ℚ) (maxiter : ℤ) (fuel : ℕ) :
    ∀ (st : NSIState n) (p : NSIState n × ExitKind),
      NSIrun qrQ nrm A tol maxiter fuel st = some p →
      (st.lam = none ∨ st.lam = some (Matrix.diag (st.Q.transpose * A * st.Q))) →
      (p.1.lam = none ∨
        p.1.lam = some (Matrix.diag (p.1.Q.transpose * A * p.1.Q))) := by
  induction fuel with
  | zero =>
    intro st p h _
    simp [NSIrun] at h
  | succ f ih =>
    intro st p h hinv
    have hstep : (NSIstep qrQ nrm A st).lam =
        some (Matrix.diag ((NSIstep qrQ nrm A st).Q.transpose * A *
          (NSIstep qrQ nrm A st).Q)) := rfl
    by_cases hg : nrm (fun _ : Fin 1 => st.residual) > tol
    · by_cases hc : ((NSIstep qrQ nrm A st).ctr : ℤ) = maxiter
      · rw [NSIrun_cap qrQ nrm A tol maxiter f st hg hc] at h
        rw [(Option.some.inj h).symm]
        exact Or.inr hstep
      · rw [NSIrun_go qrQ nrm A tol maxiter f st hg hc] at h
        exact ih _ p h (Or.inr hstep)
    · rw [NSIrun_stop qrQ nrm A tol maxiter f st hg] at h
      rw [(Option.some.inj h).symm]
      exact hinv

/-- When the `qr` primitive preserves the number of columns, a
breakdown-free run of the Lanczos loop appends exactly one column and
performs exactly one counter increment per fuel unit. -/
theorem LanczosLoop_inr_len {n : ℕ} (qrQ : List (Vec n) → List (Vec n))
    (nrm : NrmF) (A : Mat n n) (hqr : ∀ l, (qrQ l).length = l.length)
    (fuel : ℕ) :
    ∀ st st' : LState n, LanczosLoop qrQ nrm A fuel st = Sum.inr st' →
      st'.cols.length = st.cols.length + fuel ∧ st'.ctr = st.ctr + fuel := by
  induction fuel with
  | zero =>
    intro st st' h
    have : st = st' := Sum.inr.inj h
    rw [← this]
    omega
  | succ f ih =>
    intro st st' h
    by_cases hb : (LStep qrQ nrm A st).b1 = 0
    · rw [LanczosLoop_break qrQ nrm A f st hb] at h
      exact absurd h (by simp)
    · rw [LanczosLoop_go qrQ nrm A f st hb] at h
      obtain ⟨h1, h2⟩ := ih _ _ h
      have hlen : (LStep qrQ nrm A st).cols.length = st.cols.length + 1 := by
        show (qrQ (st.cols ++ [fun i => st.r i / st.b1])).length = _
        rw [hqr]
        simp
      have hctr : (LStep qrQ nrm A st).ctr = st.ctr + 1 := rfl
      rw [hlen] at h1
      rw [hctr] at h2
      omega

/-! ### Concrete runs of the kernels, used by the closed instances below -/

/-- The entry guard of `NSI` holds at tolerance `0`: the residual starts
at the sentinel value `10`. -/
theorem NSI1_guard : absNorm (fun _ : Fin 1 => (NSIinit 1).residual) > (0:ℚ) := by
  show absNorm (fun _ : Fin 1 => (10:ℚ)) > (0:ℚ)
  rw [absNorm_single]
  norm_num

/-- After one `NSI` body on `[[1]]` the residual is `0`. -/
theorem NSIstep1_res :
    (NSIstep (qrOne 1) absNorm (mat1 1) (NSIinit 1)).residual = 0 := by
  rw [NSIstep_mat1 1 (qrOne 1) absNorm (fun M => qrOne_orth 1 M)]
  show absNorm ((NSIinit 1).lprev - fun _ => (1:ℚ)) = 0
  have h : ((NSIinit 1).lprev - fun _ => (1:ℚ)) = fun _ : Fin 1 => (0:ℚ) := by
    funext i
    show (1:ℚ) - 1 = 0
    norm_num
  rw [h, absNorm_single]
  norm_num

/-- On `[[1]]` with `maxiter = 1`, `NSI` exits through the iteration cap
after exactly one body. -/
theorem NSI1_cap_run :
    NSIrun (qrOne 1) absNorm (mat1 1) 0 1 3 (NSIinit 1) =
      some (NSIstep (qrOne 1) absNorm (mat1 1) (NSIinit 1), ExitKind.cap) := by
  have hc : ((NSIstep (qrOne 1) absNorm (mat1 1) (NSIinit 1)).ctr : ℤ) = 1 := by
    show ((1:ℕ) : ℤ) = 1
    norm_num
  exact NSIrun_cap (qrOne 1) absNorm (mat1 1) 0 1 2 (NSIinit 1) NSI1_guard hc

/-- On `[[1]]` with any `maxiter ≠ 1`, `NSI` exits through the tolerance
guard after the same single body. -/
theorem NSI1_tol_run (maxiter : ℤ) (hm : maxiter ≠ 1) :
    NSIrun (qrOne 1) absNorm (mat1 1) 0 maxiter 3 (NSIinit 1) =
      some (NSIstep (qrOne 1) absNorm (mat1 1) (NSIinit 1), ExitKind.tol) := by
  have hc : ((NSIstep (qrOne 1) absNorm (mat1 1) (NSIinit 1)).ctr : ℤ) ≠ maxiter := by
    show ((1:ℕ) : ℤ) ≠ maxiter
    push_cast
    omega
  rw [NSIrun_go (qrOne 1) absNorm (mat1 1) 0 maxiter 2 (NSIinit 1) NSI1_guard hc]
  have hg2 : ¬ absNorm (fun _ : Fin 1 =>
      (NSIstep (qrOne 1) absNorm (mat1 1) (NSIinit 1)).residual) > (0:ℚ) := by
    simp only [NSIstep1_res]
    rw [absNorm_single]
    norm_num
  exact NSIrun_stop (qrOne 1) absNorm (mat1 1) 0 maxiter 1 _ hg2

/-- Normalizing the all-ones 1-vector under `absNorm`. -/
theorem IPI7_u1 : IPIu absNorm (IPIinit 1) = fun _ => (1:ℚ) := by
  funext i
  show (1:ℚ) / absNorm (fun _ : Fin 1 => (1:ℚ)) = 1
  rw [absNorm_single]
  norm_num

/-- The first linear solve of `IPI` on `[[7]]`. -/
theorem IPI7_sol1 : ratSolve (IPIB (mat1 7)) (IPIu absNorm (IPIinit 1)) =
    some fun _ => (3007:ℚ)⁻¹ := by
  rw [IPI7_u1, IPIB_mat1]
  have h73 : (7:ℚ) + 3000 = 3007 := by norm_num
  rw [h73, ratSolve_mat1 3007 (by norm_num)]
  congr 1
  funext i
  simp

/-- The first `IPI` body on `[[7]]`: it produces the eigenvalue estimate
`7` with error `|1 - 7| = 6`. -/
theorem IPI7_step1 : IPIstep ratSolve absNorm (mat1 7) (IPIinit 1) =
    some ⟨fun _ => (3007:ℚ)⁻¹, some 7, 7, 6⟩ := by
  have hs := IPIstep_some ratSolve absNorm (mat1 7) (IPIinit 1) _ IPI7_sol1
  rw [IPI7_u1] at hs
  have hmu : ((fun _ : Fin 1 => (1:ℚ)) ⬝ᵥ fun _ : Fin 1 => (3007:ℚ)⁻¹) = (3007:ℚ)⁻¹ := by
    simp [Matrix.dotProduct, Fin.sum_univ_one]
  rw [hmu] at hs
  have hlam : 1 / (3007:ℚ)⁻¹ + IPIshift = 7 := by
    rw [IPIshift, one_div, inv_inv]
    norm_num
  rw [hlam] at hs
  have hlo : (IPIinit 1).lam_old = 1 := rfl
  rw [hlo] at hs
  have he : |(1:ℚ) - 7| = 6 := by norm_num
  rw [he] at hs
  exact hs

/-- The second `IPI` body on `[[7]]`: the estimate stays `7`, the error
drops to `0`. -/
theorem IPI7_step2 : IPIstep ratSolve absNorm (mat1 7)
    ⟨fun _ => (3007:ℚ)⁻¹, some 7, 7, 6⟩ =
    some ⟨fun _ => (3007:ℚ)⁻¹, some 7, 7, 0⟩ := by
  have hu : IPIu absNorm (⟨fun _ => (3007:ℚ)⁻¹, some 7, 7, 6⟩ : IPIState 1) =
      fun _ => (1:ℚ) := by
    funext i
    show (3007:ℚ)⁻¹ / absNorm (fun _ : Fin 1 => (3007:ℚ)⁻¹) = 1
    rw [absNorm_single]
    rw [abs_of_pos (by norm_num)]
    norm_num
  have hsol : ratSolve (IPIB (mat1 7))
      (IPIu absNorm (⟨fun _ => (3007:ℚ)⁻¹, some 7, 7, 6⟩ : IPIState 1)) =
      some fun _ => (3007:ℚ)⁻¹ := by
    rw [hu, IPIB_mat1]
    have h73 : (7:ℚ) + 3000 = 3007 := by norm_num
    rw [h73, ratSolve_mat1 3007 (by norm_num)]
    congr 1
    funext i
    simp
  have hs := IPIstep_some ratSolve absNorm (mat1 7) _ _ hsol
  rw [hu] at hs
  have hmu : ((fun _ : Fin 1 => (1:ℚ)) ⬝ᵥ fun _ : Fin 1 => (3007:ℚ)⁻¹) = (3007:ℚ)⁻¹ := by
    simp [Matrix.dotProduct, Fin.sum_univ_one]
  rw [hmu] at hs
  have hlam : 1 / (3007:ℚ)⁻¹ + IPIshift = 7 := by
    rw [IPIshift, one_div, inv_inv]
    norm_num
  rw [hlam] at hs
  have hlo : (⟨fun _ => (3007:ℚ)⁻¹, some 7, 7, 6⟩ : IPIState 1).lam_old = 7 := rfl
  rw [hlo] at hs
  have he : |(7:ℚ) - 7| = 0 := by norm_num
  rw [he] at hs
  exact hs

/-- `IPI` on `[[7]]` at tolerance `0`: with fuel for three guard checks
the loop converges to the value `7` (two bodies, then a tolerance exit). -/
theorem IPI7_run3 : IPIrun ratSolve absNorm (mat1 7) 0 3 (IPIinit 1) =
    some (PyRes.val 7, ⟨fun _ => (3007:ℚ)⁻¹, some 7, 7, 0⟩) := by
  have hg1 : (IPIinit 1).err > (0:ℚ) := by
    show (1:ℚ) > 0
    norm_num
  rw [IPIrun_go ratSolve absNorm (mat1 7) 0 2 (IPIinit 1) _ hg1 IPI7_step1]
  have hg2 : (⟨fun _ => (3007:ℚ)⁻¹, some 7, 7, 6⟩ : IPIState 1).err > (0:ℚ) := by
    show (6:ℚ) > 0
    norm_num
  rw [IPIrun_go ratSolve absNorm (mat1 7) 0 1 _ _ hg2 IPI7_step2]
  have hg3 : ¬ (⟨fun _ => (3007:ℚ)⁻¹, some 7, 7, 0⟩ : IPIState 1).err > (0:ℚ) := by
    show ¬ (0:ℚ) > 0
    norm_num
  rw [IPIrun_stop ratSolve absNorm (mat1 7) 0 0 _ hg3]
  rfl

/-- `IPI` on `[[7]]` at tolerance `0` is still running after only two
guard checks: it entered its second loop body although `maxiter`-style
caps (had they been enforced) would already have been exceeded. -/
theorem IPI7_run2 : IPIrun ratSolve absNorm (mat1 7) 0 2 (IPIinit 1) = none := by
  have hg1 : (IPIinit 1).err > (0:ℚ) := by
    show (1:ℚ) > 0
    norm_num
  rw [IPIrun_go ratSolve absNorm (mat1 7) 0 1 (IPIinit 1) _ hg1 IPI7_step1]
  have hg2 : (⟨fun _ => (3007:ℚ)⁻¹, some 7, 7, 6⟩ : IPIState 1).err > (0:ℚ) := by
    show (6:ℚ) > 0
    norm_num
  rw [IPIrun_go ratSolve absNorm (mat1 7) 0 0 _ _ hg2 IPI7_step2]
  rfl

/-- For the `1 × 1` input `[[2]]`, the off-diagonal coefficient `b1` of
the very first Lanczos step is already `0`. -/
theorem Linit_b1_mat12 : (LanczosInit absNorm (mat1 2)).b1 = 0 := by
  norm_num [LanczosInit, absNorm, mat1, Matrix.mulVec, Matrix.dotProduct,
    Fin.sum_univ_one]

/-- Feeding the breakdown state of `[[2]]` through one loop body again
produces `b1 = 0` (the body divides by the vanished `b1`). -/
theorem Lstep_b1_mat12 :
    (LStep (qrKeep 1) absNorm (mat1 2) (LanczosInit absNorm (mat1 2))).b1 = 0 := by
  norm_num [LStep, LanczosInit, qrKeep, absNorm, mat1, Matrix.mulVec,
    Matrix.dotProduct, Fin.sum_univ_one, Pi.sub_apply, Pi.smul_apply, smul_eq_mul]

/-- The loop body of `LanczosTri` on the symmetric matrix
`[[0,1],[1,0]]`, started from the initialization state, computes the
nonzero off-diagonal `b1 = 1/4`: no breakdown occurs. -/
theorem Lstep_b1_swap :
    (LStep (qrKeep 2) absNorm swapMat (LanczosInit absNorm swapMat)).b1 = 1/4 := by
  norm_num [LStep, LanczosInit, qrKeep, absNorm, swapMat, Matrix.mulVec,
    Matrix.dotProduct, Fin.sum_univ_two, Pi.sub_apply, Pi.smul_apply, smul_eq_mul,
    Matrix.vecHead, Matrix.vecTail, Function.comp, abs_of_pos, abs_of_nonneg]

/-- The full (single-iteration) Lanczos loop on `[[0,1],[1,0]]` finishes
without breakdown. -/
theorem Lloop_swap :
    LanczosLoop (qrKeep 2) absNorm swapMat (2 - 1) (LanczosInit absNorm swapMat) =
      Sum.inr (LStep (qrKeep 2) absNorm swapMat (LanczosInit absNorm swapMat)) := by
  have hb : ¬ (LStep (qrKeep 2) absNorm swapMat (LanczosInit absNorm swapMat)).b1 = 0 := by
    rw [Lstep_b1_swap]
    norm_num
  rw [show (2:ℕ) - 1 = 0 + 1 from rfl]
  rw [LanczosLoop_go (qrKeep 2) absNorm swapMat 0 _ hb]
  rfl

/-- The entry guard of `NSI` holds at tolerance `0` for any size. -/
theorem NSIinit_guard (n : ℕ) :
    absNorm (fun _ : Fin 1 => (NSIinit n).residual) > (0:ℚ) := by
  show absNorm (fun _ : Fin 1 => (10:ℚ)) > (0:ℚ)
  rw [absNorm_single]
  norm_num

/-- On `[[2,0],[0,1]]` with `maxiter = 1`, `NSI` exits through the
iteration cap after exactly one body. -/
theorem NSI21_cap_run :
    NSIrun (qrOne 2) absNorm diag21 0 1 3 (NSIinit 2) =
      some (NSIstep (qrOne 2) absNorm diag21 (NSIinit 2), ExitKind.cap) := by
  have hc : ((NSIstep (qrOne 2) absNorm diag21 (NSIinit 2)).ctr : ℤ) = 1 := by
    show ((1:ℕ) : ℤ) = 1
    norm_num
  exact NSIrun_cap (qrOne 2) absNorm diag21 0 1 2 (NSIinit 2) (NSIinit_guard 2) hc

/-- The Rayleigh-quotient diagonal that the single `NSI` body on
`[[2,0],[0,1]]` extracts: the raw, unsorted vector `[2, 1]`. -/
theorem diag21_diag :
    Matrix.diag ((qrOne 2 (diag21 * (NSIinit 2).Q)).transpose * diag21 *
      qrOne 2 (diag21 * (NSIinit 2).Q)) = ![(2:ℚ), 1] := by
  show Matrix.diag ((1 : Mat 2 2).transpose * diag21 * (1 : Mat 2 2)) = ![(2:ℚ), 1]
  rw [Matrix.transpose_one, Matrix.one_mul, Matrix.mul_one]
  funext i
  fin_cases i <;> simp [Matrix.diag, diag21]

/-- The `lam` bound by the single `NSI` body on `[[2,0],[0,1]]`. -/
theorem NSIstep21_lam :
    (NSIstep (qrOne 2) absNorm diag21 (NSIinit 2)).lam = some ![(2:ℚ), 1] := by
  show some (Matrix.diag ((qrOne 2 (diag21 * (NSIinit 2).Q)).transpose * diag21 *
    qrOne 2 (diag21 * (NSIinit 2).Q))) = some ![(2:ℚ), 1]
  rw [diag21_diag]

/-- Sorting rearranges `[2, 1]` into `[1, 2]`. -/
theorem sortVec21 : sortVec ![(2:ℚ), 1] = ![1, 2] := by
  funext i
  have h : List.insertionSort (· ≤ ·) (List.ofFn ![(2:ℚ), 1]) = [1, 2] := by
    norm_num [List.ofFn_succ, List.insertionSort, List.orderedInsert]
  fin_cases i <;> simp [sortVec, h]

/-- The raw diagonal `[2, 1]` is not sorted. -/
theorem vec21_ne_sorted : (![(2:ℚ), 1] : Vec 2) ≠ ![1, 2] := by
  intro h
  have := congrFun h 0
  norm_num at this

/-- The shift `-3000` hits the sole eigenvalue of `[[-3000]]`, making the
shifted matrix singular. -/
theorem IPIB_neg3000_det : (IPIB (mat1 (-3000))).det = 0 := by
  rw [IPIB_mat1]
  have h : (-3000:ℚ) + 3000 = 0 := by norm_num
  rw [h, Matrix.det_fin_one]
  simp [mat1]

/-! ### The claims -/

/-- Claim C1, counterexample: the claim says that whenever any Lanczos
coefficient `b_j` vanishes the routine returns the partial basis `V`
(`Sum.inl`).  On the symmetric `1 × 1` input `[[2]]` the very first
coefficient `b_1` (computed before the loop, source line 91) is `0`, yet
`LanczosTri` returns `T = [[2]]` (`Sum.inr`), not the basis: the pre-loop
`b_1` is never checked. -/
theorem claim_C1_counterexample :
    (LanczosInit absNorm (mat1 2)).b1 = 0 ∧
    LanczosTri (qrKeep 1) absNorm (mat1 2) = Sum.inr ⟨1, mat1 2⟩ ∧
    (LanczosTri (qrKeep 1) absNorm (mat1 2)).isRight = true := by
  have hT := LanczosTri_mat1 (qrKeep 1) absNorm 2
    (by show absNorm (fun _ : Fin 1 => (1:ℚ)) = 1; rw [absNorm_single]; norm_num)
  refine ⟨Linit_b1_mat12, hT, ?_⟩
  rw [hT]
  rfl

/-- Claim C1, amended: if at any loop step (`j ≥ 2`, source lines
110-112) the freshly computed off-diagonal coefficient `b_j` equals `0`,
`LanczosTri` stops early and returns the current basis `V`, which is the
just-appended-and-re-orthogonalized column list; the coefficient `b_1`
computed before the loop is never checked. -/
theorem claim_C1 {n : ℕ} (qrQ : List (Vec n) → List (Vec n)) (nrm : NrmF)
    (A : Mat n n) (fuel : ℕ) (st : LState n)
    (hb : (LStep qrQ nrm A st).b1 = 0) :
    LanczosLoop qrQ nrm A (fuel + 1) st = Sum.inl (LStep qrQ nrm A st).cols ∧
    (LStep qrQ nrm A st).cols = qrQ (st.cols ++ [fun i => st.r i / st.b1]) :=
  ⟨LanczosLoop_break qrQ nrm A fuel st hb, rfl⟩

/-- Witness for C1: a concrete loop step whose `b1` vanishes (the state
reached from `[[2]]`) makes the loop return `Sum.inl` at once. -/
theorem claim_C1_witness :
    (LStep (qrKeep 1) absNorm (mat1 2) (LanczosInit absNorm (mat1 2))).b1 = 0 ∧
    (LanczosLoop (qrKeep 1) absNorm (mat1 2) (0 + 1) (LanczosInit absNorm (mat1 2)) =
      Sum.inl (LStep (qrKeep 1) absNorm (mat1 2) (LanczosInit absNorm (mat1 2))).cols ∧
    (LStep (qrKeep 1) absNorm (mat1 2) (LanczosInit absNorm (mat1 2))).cols =
      qrKeep 1 ((LanczosInit absNorm (mat1 2)).cols ++
        [fun i => (LanczosInit absNorm (mat1 2)).r i /
          (LanczosInit absNorm (mat1 2)).b1])) :=
  ⟨Lstep_b1_mat12,
   claim_C1 (qrKeep 1) absNorm (mat1 2) 0 (LanczosInit absNorm (mat1 2)) Lstep_b1_mat12⟩

/-- Claim C2, counterexample: the claim says `IPI` forms `B = A - s·I`
from a caller-supplied shift argument `s`.  There is no such argument:
at `A = [[0]]` and shift `s = 0` the matrix `B` the code forms is not
`A - 0·I` (it is `[[3000]]`, built from the hardcoded `s = -3000`). -/
theorem claim_C2_counterexample :
    IPIB (mat1 0) ≠ mat1 0 - (0:ℚ) • 1 := by
  intro h
  have hL : IPIB (mat1 0) 0 0 = 3000 := by
    rw [IPIB_mat1]
    show (0:ℚ) + 3000 = 3000
    norm_num
  rw [h] at hL
  have hR : (mat1 0 - (0:ℚ) • 1) 0 0 = 0 := by
    simp [mat1, Matrix.sub_apply, Matrix.smul_apply]
  rw [hR] at hL
  norm_num at hL

/-- Claim C2, amended: `IPI` takes no shift parameter; it uses the fixed
internal shift `s = -3000` (source line 60), so the matrix it forms is
`B = A - (-3000)·I = A + 3000·I`, and each iteration recovers
`λ = 1/μ + s` with that fixed `s`, where `μ = uᵀx` and `B x = u`. -/
theorem claim_C2 {n : ℕ} (solve : Mat n n → Vec n → Option (Vec n)) (nrm : NrmF)
    (A : Mat n n) (st : IPIState n) (x : Vec n)
    (hs : solve (IPIB A) (IPIu nrm st) = some x) :
    IPIshift = -3000 ∧
    IPIB A = A + (3000:ℚ) • 1 ∧
    IPIstep solve nrm A st =
      some ⟨x, some (1 / (IPIu nrm st ⬝ᵥ x) + IPIshift),
        1 / (IPIu nrm st ⬝ᵥ x) + IPIshift,
        |st.lam_old - (1 / (IPIu nrm st ⬝ᵥ x) + IPIshift)|⟩ := by
  refine ⟨rfl, ?_, IPIstep_some solve nrm A st x hs⟩
  show A - (-3000 : ℚ) • 1 = A + (3000:ℚ) • 1
  rw [neg_smul, sub_neg_eq_add]

/-- Witness for C2: the first `IPI` iteration on `[[7]]`, where the solve
succeeds, exhibits the fixed shift `-3000` in both `B` and `λ`. -/
theorem claim_C2_witness :
    IPIshift = -3000 ∧
    IPIB (mat1 7) = mat1 7 + (3000:ℚ) • 1 ∧
    IPIstep ratSolve absNorm (mat1 7) (IPIinit 1) =
      some ⟨fun _ => (3007:ℚ)⁻¹,
        some (1 / (IPIu absNorm (IPIinit 1) ⬝ᵥ fun _ => (3007:ℚ)⁻¹) + IPIshift),
        1 / (IPIu absNorm (IPIinit 1) ⬝ᵥ fun _ => (3007:ℚ)⁻¹) + IPIshift,
        |(IPIinit 1).lam_old -
          (1 / (IPIu absNorm (IPIinit 1) ⬝ᵥ fun _ => (3007:ℚ)⁻¹) + IPIshift)|⟩ :=
  claim_C2 ratSolve absNorm (mat1 7) (IPIinit 1) (fun _ => (3007:ℚ)⁻¹) IPI7_sol1

/-- Claim C3: the `IPI` loop never tests its `maxiter` parameter: the
returned value is the same for any two `maxiter` arguments; a
value-producing exit can only happen with the final error at or below the
tolerance; whenever the error exceeds the tolerance the loop runs another
body (no cap check of any kind); and concretely, on `[[7]]` with
`maxiter = 1` the loop still enters its second iteration (it is still
running after two guard checks) and converges to `7` regardless. -/
theorem claim_C3 {n : ℕ} (solve : Mat n n → Vec n → Option (Vec n)) (nrm : NrmF)
    (A : Mat n n) (tol : ℚ) (m m' : ℤ) (fuel : ℕ) (st : IPIState n) (l : ℚ)
    (st' : IPIState n) (fuel2 : ℕ) (st2 : IPIState n) :
    IPI solve nrm A tol m fuel = IPI solve nrm A tol m' fuel ∧
    (IPIrun solve nrm A tol fuel st = some (PyRes.val l, st') → st'.err ≤ tol) ∧
    (st2.err > tol →
      IPIrun solve nrm A tol (fuel2 + 1) st2 =
        match IPIstep solve nrm A st2 with
        | none => some (PyRes.linAlgError, st2)
        | some st3 => IPIrun solve nrm A tol fuel2 st3) ∧
    IPI ratSolve absNorm (mat1 7) 0 1 3 = some (PyRes.val 7) ∧
    IPI ratSolve absNorm (mat1 7) 0 1 2 = none := by
  refine ⟨rfl, IPIrun_val_err solve nrm A tol fuel st l st', ?_, ?_, ?_⟩
  · intro hg
    cases hstep : IPIstep solve nrm A st2 with
    | none => rw [IPIrun_fail solve nrm A tol fuel2 st2 hg hstep]
    | some st3 => rw [IPIrun_go solve nrm A tol fuel2 st2 st3 hg hstep]
  · show (IPIrun ratSolve absNorm (mat1 7) 0 3 (IPIinit 1)).map Prod.fst =
      some (PyRes.val 7)
    rw [IPI7_run3]
    rfl
  · show (IPIrun ratSolve absNorm (mat1 7) 0 2 (IPIinit 1)).map Prod.fst = none
    rw [IPI7_run2]
    rfl

/-- Witness for C3: the concrete convergent run of `IPI` on `[[7]]` ends
with error `0 ≤ 0`, and its result is independent of `maxiter`. -/
theorem claim_C3_witness :
    (⟨fun _ => (3007:ℚ)⁻¹, some 7, 7, 0⟩ : IPIState 1).err ≤ 0 ∧
    IPI ratSolve absNorm (mat1 7) 0 5000 3 = IPI ratSolve absNorm (mat1 7) 0 1 3 :=
  ⟨(claim_C3 ratSolve absNorm (mat1 7) 0 5000 1 3 (IPIinit 1) 7
      ⟨fun _ => (3007:ℚ)⁻¹, some 7, 7, 0⟩ 0 (IPIinit 1)).2.1 IPI7_run3,
   (claim_C3 ratSolve absNorm (mat1 7) 0 5000 1 3 (IPIinit 1) 7
      ⟨fun _ => (3007:ℚ)⁻¹, some 7, 7, 0⟩ 0 (IPIinit 1)).1⟩

/-- Claim C4: for any square matrix and any `maxiter ≥ 1` (with fuel
covering it and the default-style tolerance below the initial residual
sentinel `10`), the `NSI` loop reaches an exit; the exit state has run at
least one and at most `maxiter` bodies, its `lam` is bound, the function
returns that `lam` without raising any error, and with `maxiter = 1` it
exits after exactly one body.  Moreover, on `[[1]]` the cap exit
(`maxiter = 1`) and the tolerance exit (`maxiter = 5000`) reach the very
same state, and the returned values are indistinguishable. -/
theorem claim_C4 {n : ℕ} (qrQ : Mat n n → Mat n n) (nrm : NrmF) (A : Mat n n)
    (tol : ℚ) (maxiter : ℤ) (fuel : ℕ) (p : NSIState n × ExitKind)
    (hm : 1 ≤ maxiter) (hf : maxiter ≤ (fuel : ℤ))
    (hentry : tol < nrm (fun _ : Fin 1 => (10:ℚ))) :
    (NSIrun qrQ nrm A tol maxiter fuel (NSIinit n)).isSome = true ∧
    (NSIrun qrQ nrm A tol maxiter fuel (NSIinit n) = some p →
      1 ≤ p.1.ctr ∧ (p.1.ctr : ℤ) ≤ maxiter ∧ p.1.lam.isSome = true ∧
      NSI qrQ nrm A tol maxiter fuel = some (NSIret p.1) ∧
      NSIret p.1 ≠ PyRes.nameError ∧ NSIret p.1 ≠ PyRes.linAlgError ∧
      (maxiter = 1 → p.1.ctr = 1)) ∧
    NSIrun (qrOne 1) absNorm (mat1 1) 0 1 3 (NSIinit 1) =
      some (NSIstep (qrOne 1) absNorm (mat1 1) (NSIinit 1), ExitKind.cap) ∧
    NSIrun (qrOne 1) absNorm (mat1 1) 0 5000 3 (NSIinit 1) =
      some (NSIstep (qrOne 1) absNorm (mat1 1) (NSIinit 1), ExitKind.tol) ∧
    NSI (qrOne 1) absNorm (mat1 1) 0 1 3 = NSI (qrOne 1) absNorm (mat1 1) 0 5000 3 := by
  have hfuel1 : 1 ≤ fuel := by omega
  obtain ⟨f, rfl⟩ : ∃ f, fuel = f + 1 := ⟨fuel - 1, by omega⟩
  have hg : nrm (fun _ : Fin 1 => (NSIinit n).residual) > tol := hentry
  have hctr1 : (NSIstep qrQ nrm A (NSIinit n)).ctr = 1 := rfl
  obtain ⟨st', ek, hrun, h1c, hub, hlamS, hm1⟩ :
      ∃ st' ek, NSIrun qrQ nrm A tol maxiter (f + 1) (NSIinit n) = some (st', ek) ∧
        1 ≤ st'.ctr ∧ (st'.ctr : ℤ) ≤ maxiter ∧ st'.lam.isSome = true ∧
        (maxiter = 1 → st'.ctr = 1) := by
    by_cases hc1 : ((NSIstep qrQ nrm A (NSIinit n)).ctr : ℤ) = maxiter
    · refine ⟨NSIstep qrQ nrm A (NSIinit n), ExitKind.cap,
        NSIrun_cap qrQ nrm A tol maxiter f (NSIinit n) hg hc1, ?_, le_of_eq hc1,
        NSIstep_lam_isSome qrQ nrm A (NSIinit n), fun _ => hctr1⟩
      rw [hctr1]
    · have hlt : ((NSIstep qrQ nrm A (NSIinit n)).ctr : ℤ) < maxiter := by
        rw [hctr1]
        rw [hctr1] at hc1
        push_cast at hc1 ⊢
        omega
      have hle : maxiter ≤ ((NSIstep qrQ nrm A (NSIinit n)).ctr : ℤ) + f := by
        rw [hctr1]
        push_cast at hf ⊢
        omega
      obtain ⟨st', ek, hrun, hmono, hub, hlam⟩ :=
        NSIrun_total qrQ nrm A tol maxiter f (NSIstep qrQ nrm A (NSIinit n)) hlt hle
      refine ⟨st', ek, ?_, ?_, hub, ?_, ?_⟩
      · rw [NSIrun_go qrQ nrm A tol maxiter f (NSIinit n) hg hc1]
        exact hrun
      · rw [hctr1] at hmono
        omega
      · rcases hlam with h | h
        · rw [h]
          exact NSIstep_lam_isSome qrQ nrm A (NSIinit n)
        · exact h
      · intro h1
        exfalso
        rw [hctr1] at hc1
        rw [h1] at hc1
        norm_num at hc1
  refine ⟨by rw [hrun]; rfl, ?_, NSI1_cap_run, NSI1_tol_run 5000 (by norm_num), ?_⟩
  · intro hp
    rw [hrun] at hp
    have hpe : (st', ek) = p := Option.some.inj hp
    rw [← hpe]
    obtain ⟨l, hl⟩ := Option.isSome_iff_exists.mp hlamS
    refine ⟨h1c, hub, hlamS, ?_, ?_, ?_, hm1⟩
    · show (NSIrun qrQ nrm A tol maxiter (f + 1) (NSIinit n)).map
        (fun q => NSIret q.1) = some (NSIret st')
      rw [hrun]
      rfl
    · simp [NSIret, hl]
    · simp [NSIret, hl]
  · show (NSIrun (qrOne 1) absNorm (mat1 1) 0 1 3 (NSIinit 1)).map
      (fun q => NSIret q.1) =
      (NSIrun (qrOne 1) absNorm (mat1 1) 0 5000 3 (NSIinit 1)).map
      (fun q => NSIret q.1)
    rw [NSI1_cap_run, NSI1_tol_run 5000 (by norm_num)]
    rfl

/-- Witness for C4: on `[[1]]` with `maxiter = 2` and fuel `2` the loop
terminates; the exit state ran one body and satisfies every clause. -/
theorem claim_C4_witness :
    (NSIrun (qrOne 1) absNorm (mat1 1) 0 2 2 (NSIinit 1)).isSome = true ∧
    (NSIrun (qrOne 1) absNorm (mat1 1) 0 2 2 (NSIinit 1) =
        some (NSIstep (qrOne 1) absNorm (mat1 1) (NSIinit 1), ExitKind.tol) →
      1 ≤ (NSIstep (qrOne 1) absNorm (mat1 1) (NSIinit 1)).ctr ∧
      ((NSIstep (qrOne 1) absNorm (mat1 1) (NSIinit 1)).ctr : ℤ) ≤ 2 ∧
      (NSIstep (qrOne 1) absNorm (mat1 1) (NSIinit 1)).lam.isSome = true ∧
      NSI (qrOne 1) absNorm (mat1 1) 0 2 2 =
        some (NSIret (NSIstep (qrOne 1) absNorm (mat1 1) (NSIinit 1))) ∧
      NSIret (NSIstep (qrOne 1) absNorm (mat1 1) (NSIinit 1)) ≠ PyRes.nameError ∧
      NSIret (NSIstep (qrOne 1) absNorm (mat1 1) (NSIinit 1)) ≠ PyRes.linAlgError ∧
      ((2:ℤ) = 1 → (NSIstep (qrOne 1) absNorm (mat1 1) (NSIinit 1)).ctr = 1)) ∧
    NSIrun (qrOne 1) absNorm (mat1 1) 0 1 3 (NSIinit 1) =
      some (NSIstep (qrOne 1) absNorm (mat1 1) (NSIinit 1), ExitKind.cap) ∧
    NSIrun (qrOne 1) absNorm (mat1 1) 0 5000 3 (NSIinit 1) =
      some (NSIstep (qrOne 1) absNorm (mat1 1) (NSIinit 1), ExitKind.tol) ∧
    NSI (qrOne 1) absNorm (mat1 1) 0 1 3 = NSI (qrOne 1) absNorm (mat1 1) 0 5000 3 :=
  claim_C4 (qrOne 1) absNorm (mat1 1) 0 2 2
    (NSIstep (qrOne 1) absNorm (mat1 1) (NSIinit 1), ExitKind.tol)
    (by norm_num) (by norm_num)
    (by show (0:ℚ) < absNorm (fun _ : Fin 1 => (10:ℚ)); rw [absNorm_single]; norm_num)

/-- Claim C5: on a breakdown-free run (the loop comes back `Sum.inr`)
with a column-count-preserving `qr`, `LanczosTri` starts from the
normalized all-ones vector as the single initial basis column, performs
exactly `n - 1` loop steps, re-orthogonalizes the whole appended basis by
`qr` in every step, and returns `T = Vᵀ A V` of size `n × n`. -/
theorem claim_C5 {n : ℕ} (qrQ : List (Vec n) → List (Vec n)) (nrm : NrmF)
    (A : Mat n n) (st : LState n) (s : LState n)
    (h1 : 1 ≤ n) (hqr : ∀ l, (qrQ l).length = l.length)
    (hrun : LanczosLoop qrQ nrm A (n - 1) (LanczosInit nrm A) = Sum.inr st) :
    st.cols.length = n ∧ st.ctr = n - 1 ∧
    LanczosTri qrQ nrm A =
      Sum.inr ⟨st.cols.length, gram A st.cols st.cols.length⟩ ∧
    (LanczosInit nrm A).cols = [fun _ => 1 / nrm (fun _ : Fin n => (1:ℚ))] ∧
    (LStep qrQ nrm A s).cols = qrQ (s.cols ++ [fun i => s.r i / s.b1]) := by
  obtain ⟨hlen, hctr⟩ := LanczosLoop_inr_len qrQ nrm A hqr (n - 1) _ _ hrun
  have hinitlen : (LanczosInit nrm A).cols.length = 1 := rfl
  have hinitctr : (LanczosInit nrm A).ctr = 0 := rfl
  refine ⟨?_, ?_, LanczosTri_inr qrQ nrm A st hrun, rfl, rfl⟩
  · rw [hlen, hinitlen]
    omega
  · rw [hctr, hinitctr]
    omega

/-- Witness for C5: the breakdown-free run on `[[0,1],[1,0]]` ends with a
2-column basis after exactly one loop step and yields a `2 × 2` matrix. -/
theorem claim_C5_witness :
    (LStep (qrKeep 2) absNorm swapMat (LanczosInit absNorm swapMat)).cols.length = 2 ∧
    (LStep (qrKeep 2) absNorm swapMat (LanczosInit absNorm swapMat)).ctr = 2 - 1 ∧
    LanczosTri (qrKeep 2) absNorm swapMat =
      Sum.inr ⟨(LStep (qrKeep 2) absNorm swapMat (LanczosInit absNorm swapMat)).cols.length,
        gram swapMat (LStep (qrKeep 2) absNorm swapMat (LanczosInit absNorm swapMat)).cols
          (LStep (qrKeep 2) absNorm swapMat (LanczosInit absNorm swapMat)).cols.length⟩ ∧
    (LanczosInit absNorm swapMat).cols =
      [fun _ => 1 / absNorm (fun _ : Fin 2 => (1:ℚ))] ∧
    (LStep (qrKeep 2) absNorm swapMat (LanczosInit absNorm swapMat)).cols =
      qrKeep 2 ((LanczosInit absNorm swapMat).cols ++
        [fun i => (LanczosInit absNorm swapMat).r i / (LanczosInit absNorm swapMat).b1]) :=
  claim_C5 (qrKeep 2) absNorm swapMat
    (LStep (qrKeep 2) absNorm swapMat (LanczosInit absNorm swapMat))
    (LanczosInit absNorm swapMat)
    (by norm_num) (fun l => rfl) Lloop_swap

/-- Claim C6: if the shifted matrix `B = A - s·I` is singular (`s` hits
an eigenvalue of `A`), the linear solve inside `IPI` fails and that
failure escapes to the caller as a hard `LinAlgError`: `IPI` returns no
value in that case. -/
theorem claim_C6 {n : ℕ} (nrm : NrmF) (A : Mat n n) (tol : ℚ) (maxiter : ℤ)
    (fuel : ℕ)
    (hdet : (IPIB A).det = 0) (ht : tol < 1) (hf : 1 ≤ fuel) :
    IPI ratSolve nrm A tol maxiter fuel = some PyRes.linAlgError := by
  obtain ⟨f, rfl⟩ : ∃ f, fuel = f + 1 := ⟨fuel - 1, by omega⟩
  have hs : IPIstep ratSolve nrm A (IPIinit n) = none := by
    apply IPIstep_none
    simp [ratSolve, hdet]
  have hg : (IPIinit n).err > tol := by
    show (1:ℚ) > tol
    linarith
  show (IPIrun ratSolve nrm A tol (f + 1) (IPIinit n)).map Prod.fst =
    some PyRes.linAlgError
  rw [IPIrun_fail ratSolve nrm A tol f (IPIinit n) hg hs]
  rfl

/-- Witness for C6: the shift `-3000` coincides with the sole eigenvalue
of `[[-3000]]`; the shifted system is singular and `IPI` raises. -/
theorem claim_C6_witness :
    IPI ratSolve absNorm (mat1 (-3000)) 0 5000 1 = some PyRes.linAlgError ∧
    (IPIB (mat1 (-3000))).det = 0 :=
  ⟨claim_C6 absNorm (mat1 (-3000)) 0 5000 1 IPIB_neg3000_det (by norm_num)
    (by norm_num), IPIB_neg3000_det⟩

/-- Claim C7: the eigenvalue vector `NSI` returns is the raw diagonal of
`Qᵀ A Q` for the final `Q` — no sorting is applied on return — while each
loop body computes its convergence residual as the norm of the
difference between the internally kept sorted previous estimates
(`lprev`) and the sorted current estimates, and re-stores the sorted
copy into `lprev`. -/
theorem claim_C7 {n : ℕ} (qrQ : Mat n n → Mat n n) (nrm : NrmF) (A : Mat n n)
    (tol : ℚ) (maxiter : ℤ) (fuel : ℕ) (p : NSIState n × ExitKind) (l : Vec n)
    (st2 : NSIState n)
    (hrun : NSIrun qrQ nrm A tol maxiter fuel (NSIinit n) = some p)
    (hl : p.1.lam = some l) :
    l = Matrix.diag (p.1.Q.transpose * A * p.1.Q) ∧
    NSI qrQ nrm A tol maxiter fuel = some (PyRes.val l) ∧
    (NSIstep qrQ nrm A st2).residual =
      nrm (st2.lprev - sortVec (Matrix.diag
        ((qrQ (A * st2.Q)).transpose * A * qrQ (A * st2.Q)))) ∧
    (NSIstep qrQ nrm A st2).lprev =
      sortVec (Matrix.diag ((qrQ (A * st2.Q)).transpose * A * qrQ (A * st2.Q))) := by
  have hinv := NSIrun_lam_diag qrQ nrm A tol maxiter fuel (NSIinit n) p hrun (Or.inl rfl)
  rcases hinv with h | h
  · rw [hl] at h
    exact absurd h (by simp)
  · have hld : l = Matrix.diag (p.1.Q.transpose * A * p.1.Q) :=
      Option.some.inj (hl.symm.trans h)
    refine ⟨hld, ?_, rfl, rfl⟩
    show (NSIrun qrQ nrm A tol maxiter fuel (NSIinit n)).map
      (fun q => NSIret q.1) = some (PyRes.val l)
    rw [hrun]
    simp [NSIret, hl]

/-- Witness for C7: on `[[2,0],[0,1]]` the returned vector is the raw
diagonal `[2, 1]`, not the sorted `[1, 2]` the loop compares
internally. -/
theorem claim_C7_witness :
    (![(2:ℚ), 1] : Vec 2) = Matrix.diag
      ((NSIstep (qrOne 2) absNorm diag21 (NSIinit 2)).Q.transpose * diag21 *
        (NSIstep (qrOne 2) absNorm diag21 (NSIinit 2)).Q) ∧
    NSI (qrOne 2) absNorm diag21 0 1 3 = some (PyRes.val ![(2:ℚ), 1]) ∧
    sortVec ![(2:ℚ), 1] = ![1, 2] ∧
    (![(2:ℚ), 1] : Vec 2) ≠ ![1, 2] := by
  have h := claim_C7 (qrOne 2) absNorm diag21 0 1 3
    (NSIstep (qrOne 2) absNorm diag21 (NSIinit 2), ExitKind.cap)
    ![(2:ℚ), 1] (NSIinit 2) NSI21_cap_run NSIstep21_lam
  exact ⟨h.1, h.2.1, sortVec21, vec21_ne_sorted⟩

/-- Claim C8: on the `1 × 1` matrix `[[c]]`, `LanczosTri` returns
`[[c]]` itself with zero loop iterations (the loop gets `1 - 1 = 0` fuel
and comes straight back with the initial state, whose counter is `0`);
`NSI` returns the one-element eigenvalue vector `[c]`; and `IPI` returns
the eigenvalue `c`, provided `c` is not the built-in shift `-3000` (so
the shifted system is nonsingular). -/
theorem claim_C8 (c tol : ℚ) (maxiter : ℤ) (fuel : ℕ)
    (qrM : Mat 1 1 → Mat 1 1) (qrL : List (Vec 1) → List (Vec 1)) (nrm : NrmF)
    (habs : ∀ q : ℚ, nrm (fun _ : Fin 1 => q) = |q|)
    (hq : ∀ M : Mat 1 1, (qrM M).transpose * qrM M = 1)
    (h10 : tol < nrm (fun _ : Fin 1 => (10:ℚ)))
    (hc : c ≠ -3000) (ht0 : 0 ≤ tol) (ht1 : tol < 1) (hfuel : 3 ≤ fuel) :
    LanczosTri qrL nrm (mat1 c) = Sum.inr ⟨1, mat1 c⟩ ∧
    LanczosLoop qrL nrm (mat1 c) (1 - 1) (LanczosInit nrm (mat1 c)) =
      Sum.inr (LanczosInit nrm (mat1 c)) ∧
    (LanczosInit nrm (mat1 c)).ctr = 0 ∧
    NSI qrM nrm (mat1 c) tol maxiter fuel = some (PyRes.val fun _ => c) ∧
    IPI ratSolve nrm (mat1 c) tol maxiter fuel = some (PyRes.val c) := by
  have h1 : nrm (fun _ : Fin 1 => (1:ℚ)) = 1 := by
    rw [habs]
    norm_num
  have h0 : nrm (fun _ : Fin 1 => (0:ℚ)) = 0 := by
    rw [habs]
    norm_num
  exact ⟨LanczosTri_mat1 qrL nrm c h1, rfl, rfl,
    NSI_mat1 c tol maxiter fuel qrM nrm hq h0 ht0 h10 hfuel,
    IPI_mat1 c tol maxiter fuel nrm habs hc ht0 ht1 hfuel⟩

/-- Witness for C8: the three kernels on `[[7]]` with the concrete
primitive instantiations. -/
theorem claim_C8_witness :
    LanczosTri (qrKeep 1) absNorm (mat1 7) = Sum.inr ⟨1, mat1 7⟩ ∧
    LanczosLoop (qrKeep 1) absNorm (mat1 7) (1 - 1) (LanczosInit absNorm (mat1 7)) =
      Sum.inr (LanczosInit absNorm (mat1 7)) ∧
    (LanczosInit absNorm (mat1 7)).ctr = 0 ∧
    NSI (qrOne 1) absNorm (mat1 7) 0 5000 3 = some (PyRes.val fun _ => 7) ∧
    IPI ratSolve absNorm (mat1 7) 0 5000 3 = some (PyRes.val 7) :=
  claim_C8 7 0 5000 3 (qrOne 1) (qrKeep 1) absNorm
    absNorm_single (fun M => qrOne_orth 1 M)
    (by show (0:ℚ) < absNorm (fun _ : Fin 1 => (10:ℚ)); rw [absNorm_single]; norm_num)
    (by norm_num) (by norm_num) (by norm_num) (by norm_num)

/-- Claim C10: the `ctr == maxiter` break of `NSI` is reachable only for
`maxiter ≥ 1`: the counter starts at `0` and is incremented before the
equality check, so with `maxiter ≤ 0` every exit the loop reaches is a
tolerance exit. -/
theorem claim_C10 {n : ℕ} (qrQ : Mat n n → Mat n n) (nrm : NrmF) (A : Mat n n)
    (tol : ℚ) (maxiter : ℤ) (fuel : ℕ) (st : NSIState n)
    (p : NSIState n × ExitKind) (s : NSIState n)
    (hm : maxiter ≤ 0)
    (hrun : NSIrun qrQ nrm A tol maxiter fuel st = some p) :
    p.2 = ExitKind.tol ∧ (NSIinit n).ctr = 0 ∧
    (NSIstep qrQ nrm A s).ctr = s.ctr + 1 :=
  ⟨NSIrun_no_cap qrQ nrm A tol maxiter hm fuel st p hrun, rfl, rfl⟩

/-- Witness for C10: a terminating run with `maxiter = 0` exits through
the tolerance guard. -/
theorem claim_C10_witness :
    (NSIstep (qrOne 1) absNorm (mat1 1) (NSIinit 1), ExitKind.tol).2 = ExitKind.tol ∧
    (NSIinit 1).ctr = 0 ∧
    (NSIstep (qrOne 1) absNorm (mat1 1) (NSIinit 1)).ctr = (NSIinit 1).ctr + 1 :=
  claim_C10 (qrOne 1) absNorm (mat1 1) 0 0 3 (NSIinit 1)
    (NSIstep (qrOne 1) absNorm (mat1 1) (NSIinit 1), ExitKind.tol) (NSIinit 1)
    (by norm_num) (NSI1_tol_run 0 (by norm_num))
